import Mathlib

/-!
Shallow embedding of the dynamic-array container in `src/vector.h`
(`RawMemory<T>` + `Vector<T>`).

The observable state of a `Vector<T>` is its sequence of live elements
(slots `[0, size)` of the buffer) and its capacity (`data_.Capacity()`).
We model it as a list of element values together with a capacity count;
`size_` is the length of the list.  Placement-construction at slot `size_`
is appending to the list, `std::move_backward` / `std::move` on slot
ranges and `std::destroy_n` on the tail are the corresponding list
splices, translated step by step from the source.

`size_t` arithmetic is modelled as `Nat` with explicit `% 2^64` where the
source can wrap (the `size_ - 1` in `PopBack`).
-/

namespace VectorSpec

/-- Observable state of a `Vector<T>`: live elements of slots `[0, size_)`
and the capacity of the owned `RawMemory`. -/
structure Vec (α : Type) where
  elems : List α
  cap : ℕ
deriving Repr, DecidableEq

variable {α : Type}

/-- `Vector::Size`, i.e. `size_`: the number of live elements. -/
def Vec.size (v : Vec α) : ℕ := v.elems.length

/-- The container invariant `0 <= size_ <= data_.Capacity()`. -/
def Vec.WF (v : Vec α) : Prop := v.elems.length ≤ v.cap

instance (v : Vec α) : Decidable v.WF := by unfold Vec.WF; infer_instance

/-- A default-constructed `Vector()`: no buffer, `size_ = 0`. -/
def Vec.empty : Vec α := ⟨[], 0⟩

/-- Capacity requested by the growth path of `Vector::Emplace`
(src/vector.h:215): `size_ == 0 ? 1 : size_ * 2`. -/
def growthCap (n : ℕ) : ℕ := if n = 0 then 1 else n * 2

/-- `Vector::Emplace(pos, args...)` (src/vector.h:200-240), with
`index = pos - begin()` and the constructed value `x`.

Fast path (`size_ < Capacity()`): if `pos == end()`, placement-construct
at slot `size_` (append).  Otherwise: materialise `temp_object`,
placement-construct slot `size_` from `std::move(*(end() - 1))` (append
the last element), `std::move_backward(begin() + index, end() - 1, end())`
(shift slots `[index, size_-1)` one to the right), then assign
`*(begin() + index) = std::move(temp_object)` (set slot `index`).

Growth path: allocate `growthCap size_` slots, construct `x` at slot
`index` of the new block, transfer `[0, index)` before it and
`[index, size_)` after it, destroy the old block, swap. -/
def emplace (v : Vec α) (i : ℕ) (x : α) : Vec α :=
  if v.elems.length < v.cap then
    if i = v.elems.length then
      ⟨v.elems ++ [x], v.cap⟩
    else
      -- new (data_+size_) T(std::move(*(end()-1)))
      let l1 := v.elems ++ v.elems.drop (v.elems.length - 1)
      -- std::move_backward(begin()+index, end()-1, end())
      let l2 := l1.take (i + 1) ++ (l1.drop i).dropLast
      -- *(begin()+index) = std::move(temp_object)
      ⟨l2.set i x, v.cap⟩
  else
    ⟨v.elems.take i ++ x :: v.elems.drop i, growthCap v.elems.length⟩

/-- `Vector::PushBack` / `EmplaceBack` (src/vector.h:178-189):
`Emplace(end(), ...)`, i.e. `index = size_`. -/
def pushBack (v : Vec α) (x : α) : Vec α := emplace v v.elems.length x

/-- `Vector::Insert(pos, value)` (src/vector.h:191-197): forwards to
`Emplace`. -/
def insert (v : Vec α) (i : ℕ) (x : α) : Vec α := emplace v i x

/-- `Vector::Erase(pos)` (src/vector.h:242-250): `std::move(begin()+index+1,
end(), begin()+index)` shifts slots `[index+1, size_)` one to the left
(the final slot keeps its old value, it was only a move source), then
`std::destroy_n(end()-1, 1)` drops the final slot, then `--size_`. -/
def eraseAt (v : Vec α) (i : ℕ) : Vec α :=
  ⟨((v.elems.take i ++ v.elems.drop (i + 1)) ++
      v.elems.drop (v.elems.length - 1)).dropLast, v.cap⟩

/-- `Vector::Resize(new_size)` (src/vector.h:252-273).  Value-construction
of a `T` is modelled by `default`. -/
def resize [Inhabited α] (v : Vec α) (n : ℕ) : Vec α :=
  if n = v.elems.length then
    v
  else if v.cap < n then
    -- RawMemory<T> new_data(new_size); value-construct the tail;
    -- MoveToNewData(new_data)
    ⟨v.elems ++ List.replicate (n - v.elems.length) default, n⟩
  else if n < v.elems.length then
    -- destroy_n(data_ + new_size, size_ - new_size)
    ⟨v.elems.take n, v.cap⟩
  else
    -- uninitialized_value_construct_n(data_ + size_, new_size - size_)
    ⟨v.elems ++ List.replicate (n - v.elems.length) default, v.cap⟩

/-- `Vector::PopBack` (src/vector.h:275-277): `Resize(size_ - 1)` where
`size_` is a `size_t`, so on an empty vector the argument wraps to
`2^64 - 1`. -/
def popBack [Inhabited α] (v : Vec α) : Vec α :=
  resize v ((v.elems.length + (2 ^ 64 - 1)) % 2 ^ 64)

/-- The capacity `Resize` asks `RawMemory` to allocate, when it allocates
at all (src/vector.h:258): `new_size`, exactly. -/
def resizeAllocRequest (v : Vec α) (n : ℕ) : Option ℕ :=
  if n = v.elems.length then none
  else if v.cap < n then some n
  else none

/-- The allocation request made by `PopBack` via `Resize(size_ - 1)`. -/
def popBackAllocRequest (v : Vec α) : Option ℕ :=
  resizeAllocRequest v ((v.elems.length + (2 ^ 64 - 1)) % 2 ^ 64)

/-- `Vector::Reserve(new_capacity)` (src/vector.h:300-308): no-op unless
`new_capacity > Capacity()`; otherwise a fresh block of exactly
`new_capacity` slots and `MoveToNewData`. -/
def reserve (v : Vec α) (n : ℕ) : Vec α :=
  if n ≤ v.cap then v else ⟨v.elems, n⟩

/-- Copy constructor `Vector(const Vector&)` (src/vector.h:124-126):
fresh storage of `other.size_` slots, `uninitialized_copy_n` of the
elements. -/
def copyCtor (v : Vec α) : Vec α := ⟨v.elems, v.elems.length⟩

/-- Move constructor `Vector(Vector&&)` (src/vector.h:128-131): returns
(new vector, source after the move); the source is left with no buffer
and `size_ = 0`. -/
def moveCtor (v : Vec α) : Vec α × Vec α := (⟨v.elems, v.cap⟩, ⟨[], 0⟩)

/-- Body of copy assignment `Vector::operator=(const Vector&)`
(src/vector.h:138-166), after the self-assignment guard.

If `Capacity() >= other.size_`: assign `other[i]` over the first
`min(size_, other.size_)` live slots; then either `destroy_n` the excess
tail (when `size_ >= other.size_`) or `uninitialized_copy_n` the missing
suffix; `size_ = other.size_`; the buffer (and its capacity) is reused.
Otherwise: `Vector new_vector(other); Swap(new_vector)`. -/
def copyAssignBody (t s : Vec α) : Vec α :=
  if s.elems.length ≤ t.cap then
    -- for (i < min_size) (*this)[i] = other[i], written over t's live slots
    if s.elems.length ≤ t.elems.length then
      ⟨(s.elems.take (min t.elems.length s.elems.length) ++
          t.elems.drop (min t.elems.length s.elems.length)).take
          s.elems.length, t.cap⟩
    else
      ⟨(s.elems.take (min t.elems.length s.elems.length) ++
          t.elems.drop (min t.elems.length s.elems.length)) ++
          s.elems.drop t.elems.length, t.cap⟩
  else
    copyCtor s

/-- Copy assignment with its `this == &other` guard (src/vector.h:134-136);
`isSelf` models pointer identity of target and source, which a value-level
state cannot observe. -/
def copyAssignOp (isSelf : Bool) (t s : Vec α) : Vec α :=
  if isSelf then t else copyAssignBody t s

/-- Body of move assignment `Vector::operator=(Vector&&)`
(src/vector.h:173-175): steal buffer and size, source is left empty.
Returns (target after, source after). -/
def moveAssignBody (_t s : Vec α) : Vec α × Vec α :=
  (⟨s.elems, s.cap⟩, ⟨[], 0⟩)

/-- Move assignment with its `this == &other` guard (src/vector.h:170-172). -/
def moveAssignOp (isSelf : Bool) (t s : Vec α) : Vec α × Vec α :=
  if isSelf then (t, s) else moveAssignBody t s

/-- `Vector::Swap` (src/vector.h:310-313): exchanges buffers and sizes. -/
def swapVec (a b : Vec α) : Vec α × Vec α := (b, a)

/-- `PushBack` of each element of `xs` in turn, as a caller would issue a
sequence of `Append` calls. -/
def pushBackAll (v : Vec α) (xs : List α) : Vec α := xs.foldl pushBack v

/-! ### Failure model for the growth paths

Element construction can fail (throw) in the source.  We model a possibly
failing copy of one element as `copy : α → Option α`, a possibly failing
construction of the new element from `args...` as `construct : Option α`,
a possibly failing default construction as `mk : Unit → Option α`, and the
allocator as `allocOk : ℕ → Bool` (whether `RawMemory<T>` can acquire the
requested number of slots).  Each fallible operation returns whether the
call completed normally, paired with the observable vector state it
leaves behind; on the source's failure paths, `data_` and `size_` are
never assigned before the point where all fallible steps have succeeded,
and each `catch` block destroys elements of the new block only. -/

/-- `std::uninitialized_copy_n` with a possibly failing element copy: on
failure it destroys the objects it already constructed and propagates
(`none`). -/
def uninitializedCopyN (copy : α → Option α) : List α → Option (List α)
  | [] => some []
  | a :: as =>
    match copy a with
    | none => none
    | some b =>
      match uninitializedCopyN copy as with
      | none => none
      | some bs => some (b :: bs)

/-- `std::uninitialized_value_construct_n` with a possibly failing default
construction. -/
def uninitializedValueConstructN (mk : Unit → Option α) : ℕ → Option (List α)
  | 0 => some []
  | n + 1 =>
    match mk () with
    | none => none
    | some b =>
      match uninitializedValueConstructN mk n with
      | none => none
      | some bs => some (b :: bs)

/-- Growth path of `Vector::Emplace` (src/vector.h:214-236) with the
failure oracles.  Order of the source: allocate `growthCap size_` slots;
construct the new element at slot `index` of the new block; transfer
`[0, index)`; transfer `[index, size_)`; only then destroy the old
elements and swap buffers and increment `size_`.  The two `catch` blocks
destroy only elements of the new block and rethrow, so every failure
leaves the vector as it was. -/
def emplaceGrowS (allocOk : ℕ → Bool) (construct : Option α)
    (copy : α → Option α) (v : Vec α) (i : ℕ) : Bool × Vec α :=
  if allocOk (growthCap v.elems.length) = false then
    (false, v)
  else
    match construct with
    | none => (false, v)
    | some x =>
      match uninitializedCopyN copy (v.elems.take i) with
      | none => (false, v)
      | some pre =>
        match uninitializedCopyN copy (v.elems.drop i) with
        | none => (false, v)
        | some suf => (true, ⟨pre ++ x :: suf, growthCap v.elems.length⟩)

/-- Growth path of `Vector::Resize` (src/vector.h:255-261) with the
failure oracles: allocate exactly `new_size` slots, value-construct the
tail `[size_, new_size)` in the new block, then `MoveToNewData` (transfer,
destroy old, swap). -/
def resizeGrowS (allocOk : ℕ → Bool) (mk : Unit → Option α)
    (copy : α → Option α) (v : Vec α) (n : ℕ) : Bool × Vec α :=
  if allocOk n = false then
    (false, v)
  else
    match uninitializedValueConstructN mk (n - v.elems.length) with
    | none => (false, v)
    | some tail =>
      match uninitializedCopyN copy v.elems with
      | none => (false, v)
      | some moved => (true, ⟨moved ++ tail, n⟩)

/-- Growth path of `Vector::Reserve` (src/vector.h:304-307) with the
failure oracles: allocate exactly `new_capacity` slots, then
`MoveToNewData`. -/
def reserveGrowS (allocOk : ℕ → Bool) (copy : α → Option α)
    (v : Vec α) (n : ℕ) : Bool × Vec α :=
  if allocOk n = false then
    (false, v)
  else
    match uninitializedCopyN copy v.elems with
    | none => (false, v)
    | some moved => (true, ⟨moved, n⟩)

/-! ### Basic shape lemmas on the embedded operations -/

theorem emplace_elems (v : Vec α) (i : ℕ) (x : α)
    (hi : i ≤ v.elems.length) :
    (emplace v i x).elems = v.elems.take i ++ x :: v.elems.drop i := by
  unfold emplace
  by_cases hc : v.elems.length < v.cap
  · rw [if_pos hc]
    by_cases he : i = v.elems.length
    · subst he
      simp
    · have hi' : i < v.elems.length := lt_of_le_of_ne hi he
      have hne : v.elems ≠ [] := by
        intro h0
        rw [h0] at hi'
        simp at hi'
      rw [if_neg he]
      -- the slot past the end receives a copy of the last element
      have hdl : v.elems.dropLast.length = v.elems.length - 1 :=
        List.length_dropLast _
      have hlast : v.elems.drop (v.elems.length - 1) =
          [v.elems.getLast hne] := by
        calc v.elems.drop (v.elems.length - 1)
            = (v.elems.dropLast ++ [v.elems.getLast hne]).drop
                v.elems.dropLast.length := by
              rw [List.dropLast_append_getLast hne, hdl]
          _ = [v.elems.getLast hne] := List.drop_left _ _
      have h1take : (v.elems ++ v.elems.drop (v.elems.length - 1)).take
          (i + 1) = v.elems.take (i + 1) :=
        List.take_append_of_le_length (by omega)
      have h1drop : ((v.elems ++ v.elems.drop (v.elems.length - 1)).drop
          i).dropLast = v.elems.drop i := by
        rw [List.drop_append_of_le_length (by omega), hlast,
          List.dropLast_concat]
      simp only [h1take, h1drop]
      -- the backward shift followed by the assignment at slot `i`
      have hlenA : (v.elems.take (i + 1)).length = i + 1 := by
        rw [List.length_take]
        omega
      have hlt : i < (v.elems.take (i + 1) ++ v.elems.drop i).length := by
        rw [List.length_append, hlenA]
        omega
      rw [List.set_eq_take_cons_drop x hlt,
        List.take_append_of_le_length (by rw [hlenA]; omega),
        List.drop_append_of_le_length (le_of_eq hlenA.symm),
        List.take_take, Nat.min_eq_left (Nat.le_succ i),
        List.drop_of_length_le (le_of_eq hlenA)]
      simp
  · rw [if_neg hc]

theorem emplace_size (v : Vec α) (i : ℕ) (x : α) (hi : i ≤ v.elems.length) :
    (emplace v i x).size = v.elems.length + 1 := by
  unfold Vec.size
  rw [emplace_elems v i x hi]
  simp [List.length_take]
  omega

theorem emplace_cap_mono (v : Vec α) (i : ℕ) (x : α) :
    v.cap ≤ (emplace v i x).cap := by
  unfold emplace
  by_cases hc : v.elems.length < v.cap
  · rw [if_pos hc]
    split <;> exact le_refl _
  · rw [if_neg hc]
    have hcl : v.cap ≤ v.elems.length := le_of_not_lt hc
    show v.cap ≤ growthCap v.elems.length
    unfold growthCap
    by_cases h0 : v.elems.length = 0
    · rw [if_pos h0]
      omega
    · rw [if_neg h0]
      omega

theorem pushBack_elems (v : Vec α) (x : α) :
    (pushBack v x).elems = v.elems ++ [x] := by
  rw [pushBack, emplace_elems v _ x (le_refl _)]
  simp

theorem pushBackAll_elems (xs : List α) (v : Vec α) :
    (pushBackAll v xs).elems = v.elems ++ xs := by
  induction xs generalizing v with
  | nil => simp [pushBackAll]
  | cons a as ih =>
    have h1 : pushBackAll v (a :: as) = pushBackAll (pushBack v a) as := rfl
    rw [h1, ih, pushBack_elems]
    simp

theorem drop_length_sub_one {l : List α} (hne : l ≠ []) :
    l.drop (l.length - 1) = [l.getLast hne] := by
  have hdl : l.dropLast.length = l.length - 1 := List.length_dropLast _
  calc l.drop (l.length - 1)
      = (l.dropLast ++ [l.getLast hne]).drop l.dropLast.length := by
        rw [List.dropLast_append_getLast hne, hdl]
    _ = [l.getLast hne] := List.drop_left _ _

theorem eraseAt_elems (v : Vec α) (i : ℕ) (h : i < v.elems.length) :
    (eraseAt v i).elems = v.elems.take i ++ v.elems.drop (i + 1) := by
  have hne : v.elems ≠ [] := by
    intro h0
    rw [h0] at h
    simp at h
  unfold eraseAt
  rw [drop_length_sub_one hne, List.dropLast_concat]

theorem uninitializedCopyN_id (l : List α) :
    uninitializedCopyN some l = some l := by
  induction l with
  | nil => rfl
  | cons a as ih =>
    unfold uninitializedCopyN
    rw [ih]

theorem uninitializedValueConstructN_total [Inhabited α] (n : ℕ) :
    uninitializedValueConstructN (fun _ => some (default : α)) n =
      some (List.replicate n default) := by
  induction n with
  | zero => rfl
  | succ n ih =>
    unfold uninitializedValueConstructN
    rw [ih]
    rfl

/-- When nothing fails, the fallible growth path of `Emplace` computes the
same state as the total embedding. -/
theorem emplaceGrowS_agrees (v : Vec α) (i : ℕ) (x : α)
    (h : ¬ v.elems.length < v.cap) :
    emplaceGrowS (fun _ => true) (some x) some v i = (true, emplace v i x) := by
  unfold emplaceGrowS emplace
  rw [if_neg h]
  simp [uninitializedCopyN_id]

/-- When nothing fails, the fallible growth path of `Reserve` computes the
same state as the total embedding. -/
theorem reserveGrowS_agrees (v : Vec α) (n : ℕ) (h : v.cap < n) :
    reserveGrowS (fun _ => true) some v n = (true, reserve v n) := by
  unfold reserveGrowS reserve
  rw [if_neg (not_le.mpr h)]
  simp [uninitializedCopyN_id]

/-- When nothing fails, the fallible growth path of `Resize` computes the
same state as the total embedding. -/
theorem resizeGrowS_agrees [Inhabited α] (v : Vec α) (n : ℕ)
    (h : v.cap < n) (hwf : v.WF) :
    resizeGrowS (fun _ => true) (fun _ => some default) some v n =
      (true, resize v n) := by
  have hne : ¬ n = v.elems.length := by
    have := hwf
    unfold Vec.WF at this
    omega
  unfold resizeGrowS resize
  rw [if_neg hne, if_pos h]
  simp [uninitializedCopyN_id, uninitializedValueConstructN_total]

theorem copyAssignBody_elems (t s : Vec α) :
    (copyAssignBody t s).elems = s.elems := by
  unfold copyAssignBody copyCtor
  by_cases h1 : s.elems.length ≤ t.cap
  · rw [if_pos h1]
    by_cases h2 : s.elems.length ≤ t.elems.length
    · rw [if_pos h2]
      have hm : min t.elems.length s.elems.length = s.elems.length :=
        min_eq_right h2
      rw [hm]
      have hl : (s.elems.take s.elems.length).length = s.elems.length := by
        simp
      rw [List.take_append_of_le_length (le_of_eq hl.symm)]
      simp
    · rw [if_neg h2]
      have hm : min t.elems.length s.elems.length = t.elems.length :=
        min_eq_left (le_of_lt (lt_of_not_le h2))
      rw [hm]
      simp
  · rw [if_neg h1]

theorem copyAssignBody_cap_of_fits (t s : Vec α)
    (h : s.elems.length ≤ t.cap) : (copyAssignBody t s).cap = t.cap := by
  unfold copyAssignBody
  rw [if_pos h]
  split <;> rfl

theorem resize_cap_mono [Inhabited α] (v : Vec α) (n : ℕ) :
    v.cap ≤ (resize v n).cap := by
  unfold resize
  by_cases h1 : n = v.elems.length
  · rw [if_pos h1]
  · rw [if_neg h1]
    by_cases h2 : v.cap < n
    · rw [if_pos h2]
      exact le_of_lt h2
    · rw [if_neg h2]
      split <;> exact le_refl _

/-! ### Claim theorems -/

/-- Claim C1: on every growth operation (Emplace and hence PushBack and
Insert, Resize, and Reserve when it allocates), if the allocation, the
construction of the new element, or the transfer of elements into the new
block fails partway, the failure propagates (the call does not complete
normally) and the observable vector state — size, capacity, every
element — is exactly as it was before the call. -/
theorem growth_failure_strong_guarantee (allocOk : ℕ → Bool)
    (construct : Option α) (mk : Unit → Option α) (copy : α → Option α)
    (v : Vec α) (i n : ℕ) :
    ((emplaceGrowS allocOk construct copy v i).1 = false →
      (emplaceGrowS allocOk construct copy v i).2 = v) ∧
    ((resizeGrowS allocOk mk copy v n).1 = false →
      (resizeGrowS allocOk mk copy v n).2 = v) ∧
    ((reserveGrowS allocOk copy v n).1 = false →
      (reserveGrowS allocOk copy v n).2 = v) := by
  refine ⟨?_, ?_, ?_⟩
  · unfold emplaceGrowS
    (repeat' split) <;> simp
  · unfold resizeGrowS
    (repeat' split) <;> simp
  · unfold reserveGrowS
    (repeat' split) <;> simp

/-- Witness for C1: a concrete failed growth (allocator refuses) leaves a
concrete vector exactly as it was. -/
theorem growth_failure_strong_guarantee_witness :
    ((emplaceGrowS (fun _ => false) (some 7) some (⟨[1, 2], 2⟩ : Vec ℕ)
      1).1 = false) ∧
    ((emplaceGrowS (fun _ => false) (some 7) some (⟨[1, 2], 2⟩ : Vec ℕ)
      1).2 = ⟨[1, 2], 2⟩) :=
  ⟨by decide,
    (growth_failure_strong_guarantee (fun _ => false) (some 7)
      (fun _ => none) some ⟨[1, 2], 2⟩ 1 0).1 (by decide)⟩

/-- Claim C2: appending N values one by one to an initially empty vector
yields size N, and index i reads back the i-th appended value for every
i in `[0, N)` (out-of-range reads agree as well: both are `none`). -/
theorem append_sequence_correct (xs : List α) :
    (pushBackAll (Vec.empty : Vec α) xs).size = xs.length ∧
    ∀ i : ℕ, (pushBackAll (Vec.empty : Vec α) xs).elems[i]? = xs[i]? := by
  have h : (pushBackAll (Vec.empty : Vec α) xs).elems = xs := by
    rw [pushBackAll_elems]
    rfl
  exact ⟨by unfold Vec.size; rw [h], fun i => by rw [h]⟩

/-- Claim C4: after `Insert(position, v)` with `position ≤ size`, index
`position` reads the inserted value, indices below `position` are
unchanged, every element previously at an index `j ≥ position` is now at
`j + 1`, and the size grew by exactly one. -/
theorem insert_semantics (v : Vec α) (i : ℕ) (x : α) (h : i ≤ v.size) :
    (insert v i x).size = v.size + 1 ∧
    (insert v i x).elems[i]? = some x ∧
    (∀ j : ℕ, j < i → (insert v i x).elems[j]? = v.elems[j]?) ∧
    (∀ j : ℕ, i ≤ j → j < v.size →
      (insert v i x).elems[j + 1]? = v.elems[j]?) := by
  have hi : i ≤ v.elems.length := h
  have he : (insert v i x).elems =
      v.elems.take i ++ x :: v.elems.drop i := emplace_elems v i x hi
  have hlen : (v.elems.take i).length = i := by
    simp [List.length_take]
    omega
  refine ⟨emplace_size v i x hi, ?_, ?_, ?_⟩
  · rw [he, List.getElem?_append_right (le_of_eq hlen), hlen]
    simp
  · intro j hj
    rw [he, List.getElem?_append_left (by rw [hlen]; omega)]
    exact List.getElem?_take_of_lt hj
  · intro j hij hjn
    rw [he, List.getElem?_append_right (by rw [hlen]; omega), hlen]
    have h1 : j + 1 - i = (j - i) + 1 := by omega
    rw [h1, List.getElem?_cons_succ, List.getElem?_drop]
    congr 1
    omega

/-- Witness for C4: inserting 9 at position 1 of `[1, 2, 3]` puts 9 at
index 1. -/
theorem insert_semantics_witness :
    (1 ≤ (⟨[1, 2, 3], 4⟩ : Vec ℕ).size) ∧
    (insert (⟨[1, 2, 3], 4⟩ : Vec ℕ) 1 9).elems[1]? = some 9 :=
  ⟨by decide, (insert_semantics ⟨[1, 2, 3], 4⟩ 1 9 (by decide)).2.1⟩

/-- Claim C5: `Erase(position)` with `position < size` removes exactly the
element at `position`: indices below it are unchanged, every element
previously at an index `j > position` is now at `j - 1` (order preserved,
no swap-and-pop), and the size shrank by exactly one. -/
theorem erase_semantics (v : Vec α) (i : ℕ) (h : i < v.size) :
    (eraseAt v i).size = v.size - 1 ∧
    (∀ j : ℕ, j < i → (eraseAt v i).elems[j]? = v.elems[j]?) ∧
    (∀ j : ℕ, i ≤ j → j < v.size - 1 →
      (eraseAt v i).elems[j]? = v.elems[j + 1]?) := by
  have hi : i < v.elems.length := h
  have he := eraseAt_elems v i hi
  have hlen : (v.elems.take i).length = i := by
    simp [List.length_take]
    omega
  refine ⟨?_, ?_, ?_⟩
  · unfold Vec.size
    rw [he]
    simp [List.length_take]
    omega
  · intro j hj
    rw [he, List.getElem?_append_left (by rw [hlen]; omega)]
    exact List.getElem?_take_of_lt hj
  · intro j hij hjn
    rw [he, List.getElem?_append_right (by rw [hlen]; omega), hlen,
      List.getElem?_drop]
    congr 1
    omega

/-- Witness for C5: erasing position 0 of `[1, 2, 3]` yields size 2 and
moves the old index-1 element to index 0. -/
theorem erase_semantics_witness :
    (0 < (⟨[1, 2, 3], 4⟩ : Vec ℕ).size) ∧
    (eraseAt (⟨[1, 2, 3], 4⟩ : Vec ℕ) 0).size = 2 ∧
    (eraseAt (⟨[1, 2, 3], 4⟩ : Vec ℕ) 0).elems[0]? = some 2 :=
  ⟨by decide, (erase_semantics ⟨[1, 2, 3], 4⟩ 0 (by decide)).1,
    (erase_semantics ⟨[1, 2, 3], 4⟩ 0 (by decide)).2.2 0 (by omega)
      (by decide)⟩

/-- Counterexample to C3 as stated: move assignment (src/vector.h:169-176)
is an operation of the vector, and it transfers the source's storage into
the target, so assigning from a vector of smaller capacity decreases the
target's capacity (here from 2 to 0).  Both states are well formed. -/
theorem move_assign_can_decrease_capacity :
    (⟨[1, 2], 2⟩ : Vec ℕ).WF ∧ (⟨[], 0⟩ : Vec ℕ).WF ∧
    ((moveAssignOp false ⟨[1, 2], 2⟩ (⟨[], 0⟩ : Vec ℕ)).1).cap <
      (⟨[1, 2], 2⟩ : Vec ℕ).cap := by
  refine ⟨by decide, by decide, by decide⟩

/-- Claim C3 (amended): across the element-level operations — Emplace
(hence PushBack and Insert), Erase, Resize, PopBack, Reserve and copy
assignment — capacity never decreases; move construction, move assignment
and Swap, which transfer storage wholesale, are excluded.  And whenever an
Append is issued with `size == capacity`, the new capacity is exactly
`max(1, 2 * old_capacity)`. -/
theorem capacity_monotone_amended [Inhabited α] (v s : Vec α) (i n : ℕ)
    (x : α) (_hwf : v.WF) :
    v.cap ≤ (emplace v i x).cap ∧
    v.cap ≤ (pushBack v x).cap ∧
    v.cap ≤ (eraseAt v i).cap ∧
    v.cap ≤ (resize v n).cap ∧
    v.cap ≤ (popBack v).cap ∧
    v.cap ≤ (reserve v n).cap ∧
    v.cap ≤ (copyAssignBody v s).cap ∧
    (v.size = v.cap → (pushBack v x).cap = max 1 (2 * v.cap)) := by
  refine ⟨emplace_cap_mono v i x, emplace_cap_mono v _ x, le_refl _,
    resize_cap_mono v n, resize_cap_mono v _, ?_, ?_, ?_⟩
  · unfold reserve
    by_cases hr : n ≤ v.cap
    · rw [if_pos hr]
    · rw [if_neg hr]
      exact le_of_lt (lt_of_not_le hr)
  · by_cases hf : s.elems.length ≤ v.cap
    · rw [copyAssignBody_cap_of_fits v s hf]
    · unfold copyAssignBody
      rw [if_neg hf]
      exact le_of_lt (lt_of_not_le hf)
  · intro hsz
    unfold Vec.size at hsz
    unfold pushBack emplace
    rw [if_neg (by omega)]
    show growthCap v.elems.length = max 1 (2 * v.cap)
    unfold growthCap
    rw [hsz]
    by_cases h0 : v.cap = 0
    · rw [if_pos h0, h0]
      rfl
    · rw [if_neg h0]
      omega

/-- Witness for C3 (amended): a full vector of capacity 1 grows to
capacity `max(1, 2) = 2` on Append. -/
theorem capacity_monotone_amended_witness :
    (⟨[1], 1⟩ : Vec ℕ).WF ∧
    (⟨[1], 1⟩ : Vec ℕ).size = (⟨[1], 1⟩ : Vec ℕ).cap ∧
    (pushBack (⟨[1], 1⟩ : Vec ℕ) 2).cap =
      max 1 (2 * (⟨[1], 1⟩ : Vec ℕ).cap) :=
  ⟨by decide, by decide,
    (capacity_monotone_amended (⟨[1], 1⟩ : Vec ℕ) ⟨[], 0⟩ 0 0 2
      (by decide)).2.2.2.2.2.2.2 (by decide)⟩

/-- Claim C6: `Resize(newSize)` is a no-op when `newSize == size`; grows
storage to capacity exactly `newSize` when `newSize > capacity`, keeping
the old elements in order and default-constructing slots
`[size, newSize)`; default-constructs the tail in place without touching
capacity when `size < newSize <= capacity`; truncates to the unchanged
prefix without shrinking capacity when `newSize < size`; and in every
case the final size is `newSize`. -/
theorem resize_semantics [Inhabited α] (v : Vec α) (n : ℕ) (hwf : v.WF) :
    (resize v n).size = n ∧
    (n = v.size → resize v n = v) ∧
    (v.cap < n → (resize v n).cap = n ∧
      (resize v n).elems = v.elems ++ List.replicate (n - v.size) default) ∧
    (v.size < n → n ≤ v.cap → (resize v n).cap = v.cap ∧
      (resize v n).elems = v.elems ++ List.replicate (n - v.size) default) ∧
    (n < v.size → (resize v n).cap = v.cap ∧
      (resize v n).elems = v.elems.take n) := by
  have hwf' : v.elems.length ≤ v.cap := hwf
  unfold resize Vec.size
  by_cases h1 : n = v.elems.length
  · rw [if_pos h1]
    exact ⟨h1.symm, fun _ => rfl, fun hc => absurd hc (by omega),
      fun hs => absurd hs (by omega), fun hs => absurd hs (by omega)⟩
  · rw [if_neg h1]
    by_cases h2 : v.cap < n
    · rw [if_pos h2]
      refine ⟨?_, fun he => absurd he h1, fun _ => ⟨rfl, rfl⟩,
        fun _ hn => absurd hn (by omega), fun hn => absurd hn (by omega)⟩
      show (v.elems ++ List.replicate (n - v.elems.length) default).length = n
      simp
      omega
    · rw [if_neg h2]
      by_cases h3 : n < v.elems.length
      · rw [if_pos h3]
        refine ⟨?_, fun he => absurd he h1, fun hc => absurd hc h2,
          fun hs => absurd hs (by omega), fun _ => ⟨rfl, rfl⟩⟩
        show (v.elems.take n).length = n
        simp [List.length_take]
        omega
      · rw [if_neg h3]
        refine ⟨?_, fun he => absurd he h1, fun hc => absurd hc h2,
          fun _ _ => ⟨rfl, rfl⟩, fun hn => absurd hn h3⟩
        show (v.elems ++ List.replicate (n - v.elems.length) default).length = n
        simp
        omega

/-- Witness for C6: resizing `[9, 2]` (capacity 4) to 4 default-constructs
two zeros in place. -/
theorem resize_semantics_witness :
    (⟨[9, 2], 4⟩ : Vec ℕ).WF ∧
    (⟨[9, 2], 4⟩ : Vec ℕ).size < 4 ∧ 4 ≤ (⟨[9, 2], 4⟩ : Vec ℕ).cap ∧
    (resize (⟨[9, 2], 4⟩ : Vec ℕ) 4).size = 4 ∧
    (resize (⟨[9, 2], 4⟩ : Vec ℕ) 4).cap = (⟨[9, 2], 4⟩ : Vec ℕ).cap ∧
    (resize (⟨[9, 2], 4⟩ : Vec ℕ) 4).elems =
      [9, 2] ++ List.replicate 2 (default : ℕ) :=
  ⟨by decide, by decide, by decide,
    (resize_semantics (⟨[9, 2], 4⟩ : Vec ℕ) 4 (by decide)).1,
    ((resize_semantics (⟨[9, 2], 4⟩ : Vec ℕ) 4 (by decide)).2.2.2.1
      (by decide) (by decide)).1,
    ((resize_semantics (⟨[9, 2], 4⟩ : Vec ℕ) 4 (by decide)).2.2.2.1
      (by decide) (by decide)).2⟩

/-- Claim C7, evaluated at the failing input: `PopBack` on an empty vector
does not signal a precondition violation — `size_ - 1` wraps in `size_t`,
so it calls `Resize(2^64 - 1)`, which requests an allocation of `2^64 - 1`
slots (an `OutOfMemory`-path inside a `noexcept` function).  On non-empty
vectors the `Resize(size - 1)` equivalence does hold, shown here at a
concrete input. -/
theorem popBack_empty_requests_huge_allocation :
    popBackAllocRequest (Vec.empty : Vec ℕ) = some (2 ^ 64 - 1) ∧
    popBack (⟨[5], 1⟩ : Vec ℕ) = resize (⟨[5], 1⟩ : Vec ℕ) 0 ∧
    (popBack (⟨[5], 1⟩ : Vec ℕ)).size = 0 := by
  refine ⟨by decide, by decide, by decide⟩

/-- Claim C8: `Reserve(c)` with `c <= capacity` changes nothing at all;
with `c > capacity` it sets capacity to exactly `c` and leaves the size
and every element untouched. -/
theorem reserve_spec (v : Vec α) (n : ℕ) :
    (n ≤ v.cap → reserve v n = v) ∧
    (v.cap < n → (reserve v n).cap = n ∧ (reserve v n).elems = v.elems ∧
      (reserve v n).size = v.size) := by
  constructor
  · intro h
    unfold reserve
    rw [if_pos h]
  · intro h
    unfold reserve
    rw [if_neg (not_le.mpr h)]
    exact ⟨rfl, rfl, rfl⟩

/-- Witness for C8: reserving 5 over capacity 2 gives capacity exactly 5;
reserving 2 at capacity 2 is a no-op. -/
theorem reserve_spec_witness :
    ((⟨[1, 2], 2⟩ : Vec ℕ).cap < 5 ∧
      (reserve (⟨[1, 2], 2⟩ : Vec ℕ) 5).cap = 5) ∧
    (2 ≤ (⟨[1, 2], 2⟩ : Vec ℕ).cap ∧
      reserve (⟨[1, 2], 2⟩ : Vec ℕ) 2 = ⟨[1, 2], 2⟩) :=
  ⟨⟨by decide, ((reserve_spec (⟨[1, 2], 2⟩ : Vec ℕ) 5).2 (by decide)).1⟩,
    ⟨by decide, (reserve_spec (⟨[1, 2], 2⟩ : Vec ℕ) 2).1 (by decide)⟩⟩

/-- Claim C9: copy construction yields an element-wise equal vector of
equal size, and mutating the copy evolves the copy's own value only (the
model is a deep copy by construction: fresh storage of `other.size_`
slots, element-wise `uninitialized_copy_n`); copy assignment makes the
target element-wise equal to the source with the source's size, and when
the target's capacity already covers the source's size the capacity is
unchanged (storage reused, no reallocation). -/
theorem copy_semantics (x t s : Vec α) (y : α) :
    (copyCtor x).size = x.size ∧
    (∀ i : ℕ, (copyCtor x).elems[i]? = x.elems[i]?) ∧
    (pushBack (copyCtor x) y).elems = x.elems ++ [y] ∧
    (copyAssignBody t s).size = s.size ∧
    (∀ i : ℕ, (copyAssignBody t s).elems[i]? = s.elems[i]?) ∧
    (s.size ≤ t.cap → (copyAssignBody t s).cap = t.cap) := by
  refine ⟨rfl, fun i => rfl, ?_, ?_, ?_, ?_⟩
  · rw [pushBack_elems]
    rfl
  · unfold Vec.size
    rw [copyAssignBody_elems]
  · intro i
    rw [copyAssignBody_elems]
  · exact copyAssignBody_cap_of_fits t s

/-- Witness for C9: assigning a 2-element source into a target of
capacity 6 reuses the target's storage (capacity stays 6) and copies the
elements. -/
theorem copy_semantics_witness :
    ((⟨[7, 8], 5⟩ : Vec ℕ).size ≤ (⟨[1, 2, 3, 4], 6⟩ : Vec ℕ).cap) ∧
    (copyAssignBody (⟨[1, 2, 3, 4], 6⟩ : Vec ℕ) ⟨[7, 8], 5⟩).cap = 6 :=
  ⟨by decide,
    (copy_semantics ⟨[], 0⟩ (⟨[1, 2, 3, 4], 6⟩ : Vec ℕ) ⟨[7, 8], 5⟩
      0).2.2.2.2.2 (by decide)⟩

/-- Claim C10: self-assignment is a no-op.  Both assignment operators
begin with a `this == &other` early return (modelled by the `isSelf`
flag), and even the guarded-out body of copy assignment maps a well formed
vector assigned to itself back to itself. -/
theorem self_assignment_noop (v : Vec α) (hwf : v.WF) :
    copyAssignOp true v v = v ∧ moveAssignOp true v v = (v, v) ∧
    copyAssignBody v v = v := by
  refine ⟨rfl, rfl, ?_⟩
  have hwf' : v.elems.length ≤ v.cap := hwf
  obtain ⟨e, c⟩ := v
  unfold copyAssignBody
  rw [if_pos hwf', if_pos (le_refl _), min_self]
  simp

/-- Witness for C10: a concrete well formed vector assigned to itself is
unchanged. -/
theorem self_assignment_noop_witness :
    (⟨[1, 2], 3⟩ : Vec ℕ).WF ∧
    copyAssignBody (⟨[1, 2], 3⟩ : Vec ℕ) ⟨[1, 2], 3⟩ = ⟨[1, 2], 3⟩ :=
  ⟨by decide, (self_assignment_noop (⟨[1, 2], 3⟩ : Vec ℕ) (by decide)).2.2⟩

end VectorSpec
